import Mathlib

/-!
# Performous: decode/buffer pipeline and background scanner

A shallow embedding of the parts of `game/ffmpeg.hh`, `game/backgrounds.cc` and
`game/main.cc` that the stated properties are about, followed by the theorems.

Conventions of the embedding

* `std::int64_t` and `int` values are `Int`; `size_t`/`unsigned` values are `Nat`.
  None of the embedded functions does arithmetic that can overflow on them,
  except the cursor increment of `Backgrounds::getRandom` (see `getRandomMod`).
* A finite `double` is the rational number it denotes. The one `double`
  computation of the embedded code, `double(pos) / m_sps >= m_duration`, is
  evaluated as IEEE 754 binary64 does it: the conversion and the quotient are
  rounded to nearest, ties to even, a zero divisor gives an infinity or NaN, and
  a comparison with NaN is false (see `roundDouble`, `positionInSeconds` and
  `Double.ge`). The `double` members that no embedded function computes with
  (position, duration and replay gain of `FFmpeg`, replay gain of `AudioBuffer`)
  hold finite values and are rationals.
* A C++ member function that may throw returns its outcome together with the
  state it leaves behind.
-/

namespace Performous

/-! ## Arithmetic of `double` -/

/-- Rounding of a rational to the nearest integer, ties to the even one. -/
def roundHalfEven (m : ℚ) : ℤ :=
  if m - ⌊m⌋ < 1 / 2 then ⌊m⌋
  else if 1 / 2 < m - ⌊m⌋ then ⌊m⌋ + 1
  else if ⌊m⌋ % 2 = 0 then ⌊m⌋
  else ⌊m⌋ + 1

/-- Rounding of a rational to binary64, round to nearest, ties to even: the value
is scaled by the power of two `2 ^ e` that brings its magnitude into
`[2^52, 2^53)`, rounded to an integer (the 53-bit significand) and scaled back.
The exponent is not bounded, so this is the IEEE 754 result for magnitudes in
the normal range `[2^-1022, 2^1024)`; the values the embedded code rounds,
64-bit positions, 32-bit sample rates and their quotients, lie in it. -/
def roundDouble (q : ℚ) : ℚ :=
  if q = 0 then 0
  else
    let e : ℤ := Int.log 2 |q| - 52
    (roundHalfEven (q / 2 ^ e) : ℚ) * 2 ^ e

/-- The rationals that are values of a finite `double` (exponent range aside):
an integer significand of magnitude below `2^53` times a power of two. -/
def isDouble (q : ℚ) : Prop := ∃ M E : ℤ, |M| < 2 ^ 53 ∧ q = (M : ℚ) * 2 ^ E

/-- The value of a `double` expression: a finite value, an infinity, or NaN. -/
inductive Double where
  | finite (value : ℚ)
  | infinity (negative : Bool)
  | nan
  deriving DecidableEq

/-- The expression `double(pos) / m_sps`: both operands are converted to `double`
and divided; a non-zero value divided by zero is an infinity with the sign of
the dividend, zero divided by zero is NaN. -/
def positionInSeconds (pos : Int) (sps : Nat) : Double :=
  let x := roundDouble (pos : ℚ)
  let y := roundDouble (sps : ℚ)
  if y = 0 then
    if x = 0 then Double.nan else Double.infinity (decide (x < 0))
  else Double.finite (roundDouble (x / y))

/-- The comparison `x >= y` of two `double` values: false when either is NaN; plus
infinity is at least everything else, and everything else is at least minus
infinity. -/
def Double.ge : Double → Double → Bool
  | Double.finite x, Double.finite y => decide (y ≤ x)
  | Double.finite _, Double.infinity negative => negative
  | Double.infinity negative, Double.finite _ => !negative
  | Double.infinity negative, Double.infinity negative2 => !negative || negative2
  | Double.nan, _ => false
  | Double.finite _, Double.nan => false
  | Double.infinity _, Double.nan => false

/-! ## `AudioBuffer` (game/ffmpeg.hh) -/

/-- The data members of `class AudioBuffer` that carry state. `capacity` is
`m_data.size()`; the contents of `m_data`, the mutex, the condition variable and
the reader thread are left out. -/
structure AudioBuffer where
  capacity : Nat
  m_write_pos : Int
  m_read_pos : Int
  m_eof_pos : Int
  m_sps : Nat
  m_duration : Double
  m_replayGainDecibels : ℚ
  m_replayGainFactor : ℚ
  m_seek_asked : Bool
  m_quit : Bool
  deriving DecidableEq

namespace AudioBuffer

/-- The default value of the constructor's `size` argument. -/
def defaultSize : Nat := 4320256

/-- The state given by the default member initialisers of `AudioBuffer` for a
buffer constructed with sample rate `sps` and `size` samples of storage:
`m_write_pos = 0`, `m_read_pos = 0`, `m_eof_pos = -1`, `m_duration{0}`,
`m_replayGainDecibels{0.0}`, `m_replayGainFactor{0.0}`, `m_seek_asked{false}`,
`m_quit{false}`. -/
def init (sps : Nat) (size : Nat) : AudioBuffer :=
  { capacity := size
    m_write_pos := 0
    m_read_pos := 0
    m_eof_pos := -1
    m_sps := sps
    m_duration := Double.finite 0
    m_replayGainDecibels := 0
    m_replayGainFactor := 0
    m_seek_asked := false
    m_quit := false }

/-- The member `bool eof(std::int64_t pos) const`:
`(m_eof_pos != -1 && pos >= m_eof_pos) || (double(pos) / m_sps >= m_duration)`,
the second test in `double` arithmetic. -/
def eof (b : AudioBuffer) (pos : Int) : Bool :=
  (b.m_eof_pos != -1 && decide (pos ≥ b.m_eof_pos))
    || (positionInSeconds pos b.m_sps).ge b.m_duration

/-- The queue invariant of the specification: `readPos ≤ writePos` and
`writePos − readPos ≤ capacity`. -/
def queueInvariant (b : AudioBuffer) : Prop :=
  b.m_read_pos ≤ b.m_write_pos ∧ b.m_write_pos - b.m_read_pos ≤ (b.capacity : Int)

instance (b : AudioBuffer) : Decidable (queueInvariant b) := by
  unfold queueInvariant; infer_instance

end AudioBuffer

/-! ## `FFmpeg` (game/ffmpeg.hh) -/

/-- The data members of `class FFmpeg` that carry state; the libav handles
(`m_formatContext`, `m_codecContext`) are left out. -/
structure FFmpeg where
  m_filename : String
  m_position : ℚ
  m_duration : ℚ
  m_replayGainDecibels : ℚ
  m_replayGainFactor : ℚ
  m_streamId : Int
  deriving DecidableEq

namespace FFmpeg

/-- The state given by the default member initialisers of `FFmpeg`:
`m_position = 0.0`, `m_duration = 0.0`, `m_replayGainDecibels = 0.0`,
`m_replayGainFactor = 0.0`, `m_streamId = -1`. -/
def init (filename : String) : FFmpeg :=
  { m_filename := filename
    m_position := 0
    m_duration := 0
    m_replayGainDecibels := 0
    m_replayGainFactor := 0
    m_streamId := -1 }

/-- The exception `class FFmpeg::Error : public std::runtime_error`, constructed as
`std::runtime_error(msgFmt(self, errorValue, func))`: the exception carries the
formatted message. -/
structure Error where
  what : String
  deriving DecidableEq, Repr

/-- The constructor `Error(const FFmpeg &self, int errorValue, const char *func)`. The static
`msgFmt` is declared in the header and defined elsewhere, so it is a parameter. -/
def Error.make (msgFmt : FFmpeg → Int → String → String) (self : FFmpeg)
    (errorValue : Int) (func : String) : Error :=
  ⟨msgFmt self errorValue func⟩

/-- The member `void check(int errorCode, const char* func = "")`:
`if (errorCode < 0) throw Error(*this, errorCode, func);`.
Returns the outcome and the state of the object afterwards. -/
def check (msgFmt : FFmpeg → Int → String → String) (self : FFmpeg)
    (errorCode : Int) (func : String) : Except Error Unit × FFmpeg :=
  if errorCode < 0 then (Except.error (Error.make msgFmt self errorCode func), self)
  else (Except.ok (), self)

end FFmpeg

/-- The values of `enum AVMediaType` (libavutil/avutil.h). -/
def AVMEDIA_TYPE_UNKNOWN : Int := -1
/-- See `AVMEDIA_TYPE_UNKNOWN`. -/
def AVMEDIA_TYPE_DATA : Int := 2
namespace DurationFFmpeg

end DurationFFmpeg

/-! ## `Backgrounds` (game/backgrounds.cc) -/

/-- The data members of `class Backgrounds` used by backgrounds.cc (the mutex and
the thread handle are left out). The class declaration is not part of the
sources; `m_bgiter` is a counter that is only ever reset to 0 and incremented. -/
structure Backgrounds where
  m_bgs : List String
  m_bgiter : Nat
  m_dirty : Bool
  m_loading : Bool
  deriving DecidableEq, Repr

namespace Backgrounds

/-- What a call of `getRandom` produces: the returned string, or the exception
thrown (`std::runtime_error` by the emptiness test, `std::out_of_range` by
`vector::at`). -/
inductive Outcome where
  | value (s : String)
  | runtime_error (what : String)
  | out_of_range
  deriving DecidableEq, Repr

/-- The member `std::string Backgrounds::getRandom()` on runs in which the cursor
does not wrap around, the cursor taken as a natural number:
```
if (m_bgs.empty()) throw std::runtime_error("No random backgrounds available");
return m_bgs.at((++m_bgiter) % m_bgs.size());
```
Returns the outcome and the state afterwards. It agrees with `getRandomMod`
as long as the incremented cursor stays below the modulus. -/
def getRandom (self : Backgrounds) : Outcome × Backgrounds :=
  if self.m_bgs.isEmpty then
    (Outcome.runtime_error "No random backgrounds available", self)
  else
    let self1 := { self with m_bgiter := self.m_bgiter + 1 }
    match self1.m_bgs.get? (self1.m_bgiter % self1.m_bgs.length) with
    | some s => (Outcome.value s, self1)
    | none => (Outcome.out_of_range, self1)

/-- The member `std::string Backgrounds::getRandom()` with the cursor as a machine
integer:
```
if (m_bgs.empty()) throw std::runtime_error("No random backgrounds available");
return m_bgs.at((++m_bgiter) % m_bgs.size());
```
The type of `m_bgiter` is declared outside the sources; `modulus` is the number
of values of that type (`2^32` or `2^64` for an unsigned type of that width),
and `++m_bgiter` at its largest value wraps to 0. Returns the outcome and the
state afterwards. -/
def getRandomMod (modulus : Nat) (self : Backgrounds) : Outcome × Backgrounds :=
  if self.m_bgs.isEmpty then
    (Outcome.runtime_error "No random backgrounds available", self)
  else
    let self1 := { self with m_bgiter := (self.m_bgiter + 1) % modulus }
    match self1.m_bgs.get? (self1.m_bgiter % self1.m_bgs.length) with
    | some s => (Outcome.value s, self1)
    | none => (Outcome.out_of_range, self1)

end Backgrounds

/-- An `fs::path` as the sequence of its components, which is what
`parent.begin() .. parent.end()` iterates over. A root directory is the
component `"/"`. -/
structure FsPath where
  components : List String
  deriving DecidableEq, Repr

namespace FsPath

/-- The number of components, `std::distance(p.begin(), p.end())`. -/
def distance (p : FsPath) : Nat := p.components.length

/-- The path `parent / name`, the path of the directory entry `name` of `parent`. -/
def append (parent : FsPath) (name : String) : FsPath :=
  ⟨parent.components ++ [name]⟩

/-- The string `p.filename().string()`: the last component (empty for an empty path). -/
def filename (p : FsPath) : String := p.components.getLast?.getD ""

/-- The string `p.string()`: the components joined by the separator, the root directory
not followed by one. -/
def string (p : FsPath) : String :=
  match p.components with
  | "/" :: rest => "/" ++ "/".intercalate rest
  | cs => "/".intercalate cs

end FsPath

/-- The file system as seen by the scan. `list p` is what iterating
`fs::directory_iterator(p)` yields, as entry names in iteration order, or
`none` when it throws; `is_directory p` is `fs::is_directory(p)` (which follows
symbolic links), or `none` when it throws. Nothing relates the two, so a
directory may contain itself. -/
structure FileSystem where
  list : FsPath → Option (List String)
  is_directory : FsPath → Option Bool

/-- The test `regex_search(name, expression)` for the expression
`\.(png|jpeg|jpg|svg)$` with `std::regex_constants::icase`: the name, letters
lowered, ends with one of the four extensions. -/
def regex_search (name : String) : Bool :=
  let lowered := name.data.map Char.toLower
  [".png", ".jpeg", ".jpg", ".svg"].any (fun ext => ext.data.isSuffixOf lowered)

/-- The call `s.erase(pos)`: keeps the first `pos` characters. -/
def erase (s : String) (pos : Nat) : String := ⟨s.data.take pos⟩

namespace Backgrounds

/-- The `for` loop of `reload_internal(fs::path const& parent)` over the entries
still to be visited, inside the `try` block. `recurse` is the recursive call
`reload_internal(p)`; it yields `none` only when the recursion depth granted to
it is used up. An exception (from `is_directory`, or `std::out_of_range` from
`erase`) leaves the loop and is caught by the `catch` of the same call, which
logs and returns. -/
def scanEntries (recurse : FsPath → Backgrounds → Option Backgrounds) (fs : FileSystem)
    (parent : FsPath) : List String → Backgrounds → Option Backgrounds
  | [], self => some self
  | e :: es, self =>
    if !self.m_loading then some self
    else
      let p := parent.append e
      match fs.is_directory p with
      | none => some self
      | some true =>
        match recurse p self with
        | none => none
        | some self1 => scanEntries recurse fs parent es self1
      | some false =>
        let name := p.filename
        let path := p.string
        if path.length < name.length then some self
        else
          let path := erase path (path.length - name.length)
          if !regex_search name then scanEntries recurse fs parent es self
          else
            scanEntries recurse fs parent es
              { self with m_bgs := self.m_bgs ++ [path ++ name], m_dirty := true }

/-- The member `void Backgrounds::reload_internal(fs::path const& parent)`, run with a bound
`depth` on the number of nested calls: `none` means the bound was reached, `some`
is the state in which the call returns.
```
if (std::distance(parent.begin(), parent.end()) > 20) { log; return; }
try { for (fs::directory_iterator dirIt(parent), dirEnd; m_loading && dirIt != dirEnd; ++dirIt) ... }
catch (std::exception const& e) { log }
``` -/
def reload_internal (fs : FileSystem) : Nat → FsPath → Backgrounds → Option Backgrounds
  | 0, _, _ => none
  | depth + 1, parent, self =>
    if parent.distance > 20 then some self
    else
      match fs.list parent with
      | none => some self
      | some entries => scanEntries (reload_internal fs depth) fs parent entries self

end Backgrounds

namespace Backgrounds

/-- The call `std::iter_swap(first + i, first + j)` on the list: the elements at the
two positions change places (nothing happens for a position outside the list). -/
def iter_swap (l : List String) (i j : Nat) : List String :=
  match l.get? i, l.get? j with
  | some x, some y => (l.set i y).set j x
  | _, _ => l

/-- The call `std::shuffle(m_bgs.begin(), m_bgs.end(), std::mt19937(std::random_device()()))`.
The library rearranges the range by swapping pairs of elements; which pairs is
decided by the random generator, so the sequence of swapped positions `swaps`
is a parameter. -/
def shuffle (swaps : List (Nat × Nat)) (l : List String) : List String :=
  swaps.foldl (fun acc ij => iter_swap acc ij.1 ij.2) l

/-- The `for` loop of `reload_internal()` over the paths of `PathCache::getPaths()`
still to be visited:
```
for (auto it = paths.begin(); m_loading && it != paths.end(); ++it) {
  if (!m_loading) break;
  *it /= "backgrounds";
  if (!fs::is_directory(*it)) { log; continue; }
  reload_internal(*it);
}
```
The result is `none` when the loop does not run to its end: `fs::is_directory`
throws here outside any `try` block. The recursive scan is given the
`21 - distance + 1` nested calls that it needs at most. -/
def reload_internal_paths (fs : FileSystem) : List FsPath → Backgrounds → Option Backgrounds
  | [], self => some self
  | it :: rest, self =>
    if !self.m_loading then some self
    else
      let it := it.append "backgrounds"
      match fs.is_directory it with
      | none => none
      | some false => reload_internal_paths fs rest self
      | some true =>
        match reload_internal fs (21 - it.distance + 1) it self with
        | none => none
        | some self1 => reload_internal_paths fs rest self1

/-- The member `void Backgrounds::reload_internal()` (no argument), the full reload:
```
{ lock; m_bgs.clear(); m_dirty = true; }
Paths paths = PathCache::getPaths();
for (...) { ... }
m_loading = false;
{ lock; std::shuffle(...); m_dirty = false; m_bgiter = 0; }
```
`paths` is what `PathCache::getPaths()` returns. The result is `some` state when
the call completes and `none` when it does not. -/
def reload_internal_full (fs : FileSystem) (paths : List FsPath) (swaps : List (Nat × Nat))
    (self : Backgrounds) : Option Backgrounds :=
  let self1 := { self with m_bgs := [], m_dirty := true }
  match reload_internal_paths fs paths self1 with
  | none => none
  | some self2 =>
    let self3 := { self2 with m_loading := false }
    some { self3 with m_bgs := shuffle swaps self3.m_bgs, m_dirty := false, m_bgiter := 0 }

/-- A run of `k` consecutive calls of `getRandom`: the outcomes in call order and
the state afterwards. -/
def getRandomN : Nat → Backgrounds → List Outcome × Backgrounds
  | 0, self => ([], self)
  | k + 1, self =>
    let first := self.getRandom
    let others := getRandomN k first.2
    (first.1 :: others.1, others.2)

end Backgrounds

/-! ## Console log level (game/main.cc) -/

/-- The enumeration `spdlog::level::level_enum`. -/
inductive level_enum where
  | trace | debug | info | warn | err | critical | off
  deriving DecidableEq, Repr

/-- The log level selection of `main`:
```
auto levelString = UnicodeUtil::toUpper(logLevel);
auto levelEnum = spdlog::level::from_str(levelString);
if (levelString != "OFF" && levelEnum == spdlog::level::off) levelEnum = spdlog::level::warn;
```
`toUpper` (defined outside the sources) and the library lookup `from_str` are
parameters. The result is the level handed to `SpdLogger`. -/
def consoleLogLevel (toUpper : String → String) (from_str : String → level_enum)
    (logLevel : String) : level_enum :=
  let levelString := toUpper logLevel
  let levelEnum := from_str levelString
  if levelString != "OFF" && levelEnum == level_enum.off then level_enum.warn
  else levelEnum

/-! ## Event handling (game/main.cc, `checkEvents`) -/

/-- The event type `SDL_QUIT` (SDL_events.h). -/
def SDL_QUIT : Nat := 0x100
/-- The event type `SDL_WINDOWEVENT`. -/
def SDL_WINDOWEVENT : Nat := 0x200
/-- The event type `SDL_KEYDOWN`. -/
def SDL_KEYDOWN : Nat := 0x300
/-- The event type `SDL_KEYUP`. -/
def SDL_KEYUP : Nat := 0x301

/-- The scancode `SDL_SCANCODE_F` (SDL_scancode.h). -/
def SDL_SCANCODE_F : Nat := 9
/-- The scancode `SDL_SCANCODE_RETURN`. -/
def SDL_SCANCODE_RETURN : Nat := 40
/-- The scancode `SDL_SCANCODE_F4`. -/
def SDL_SCANCODE_F4 : Nat := 61
/-- The scancode `SDL_SCANCODE_F11`. -/
def SDL_SCANCODE_F11 : Nat := 68
/-- The scancode `SDL_SCANCODE_F12`. -/
def SDL_SCANCODE_F12 : Nat := 69
/-- The scancode `SDL_SCANCODE_PRINTSCREEN`. -/
def SDL_SCANCODE_PRINTSCREEN : Nat := 70
/-- The scancode `SDL_SCANCODE_KP_ENTER`. -/
def SDL_SCANCODE_KP_ENTER : Nat := 88

/-- The modifier mask `KMOD_CTRL = KMOD_LCTRL | KMOD_RCTRL` (SDL_keycode.h). -/
def KMOD_CTRL : Nat := 0x00C0
/-- The modifier mask `KMOD_ALT = KMOD_LALT | KMOD_RALT`. -/
def KMOD_ALT : Nat := 0x0300
/-- The modifier mask `KMOD_GUI = KMOD_LGUI | KMOD_RGUI`. -/
def KMOD_GUI : Nat := 0x0C00

/-- The fields of an `SDL_Event` that `checkEvents` reads: `event.type`,
`event.key.keysym.scancode`, `event.key.keysym.mod`, and `event.window.event`,
`event.window.data1`, `event.window.data2`. -/
structure SDL_Event where
  type : Nat
  scancode : Nat
  mod : Nat
  windowEvent : Nat
  data1 : Int
  data2 : Int
  deriving DecidableEq, Repr

/-- What the first loop of `checkEvents` acts on. The calls into other classes
are recorded in call order: `controllers` holds the arguments of
`gm.controllers.pushEvent`, `windowEvents` those of `window.event`, `screen`
those of `gm.getCurrentScreen()->manageEvent`; `finished` tells whether
`gm.finished()` was called, `fullscreen` is `config["graphic/fullscreen"].b()`
and `take_screenshot` is the global `g_take_screenshot`. -/
structure Game where
  controllers : List (SDL_Event × Nat)
  windowEvents : List (Nat × Int × Int)
  screen : List SDL_Event
  finished : Bool
  fullscreen : Bool
  take_screenshot : Bool
  deriving DecidableEq, Repr

/-- The body of the loop `while (SDL_PollEvent(&event) == 1) { ... }` of
`checkEvents` for one polled event. `shortcutModifier` is the value of
`Platform::shortcutModifier()`, which is defined outside the sources. A
`continue` ends the body before `manageEvent`. -/
def checkEvent (shortcutModifier : Nat) (eventTime : Nat) (gm : Game) (event : SDL_Event) :
    Game :=
  let gm := { gm with controllers := gm.controllers ++ [(event, eventTime)] }
  let type := event.type
  let gm :=
    if type = SDL_WINDOWEVENT then
      { gm with windowEvents := gm.windowEvents ++ [(event.windowEvent, event.data1, event.data2)] }
    else gm
  let gm := if type = SDL_QUIT then { gm with finished := true } else gm
  let forward : Game := { gm with screen := gm.screen ++ [event] }
  if type = SDL_KEYDOWN then
    let key := event.scancode
    let mod := event.mod
    let altEnter := (key == SDL_SCANCODE_RETURN || key == SDL_SCANCODE_KP_ENTER)
      && (mod &&& KMOD_ALT != 0)
    let modF := key == SDL_SCANCODE_F && (mod &&& KMOD_CTRL != 0) && (mod &&& KMOD_GUI != 0)
    if altEnter || modF || key == SDL_SCANCODE_F11 then
      { gm with fullscreen := !gm.fullscreen }
    else if key == SDL_SCANCODE_PRINTSCREEN
        || (key == SDL_SCANCODE_F12 && (mod &&& shortcutModifier != 0)) then
      { gm with take_screenshot := true }
    else if key == SDL_SCANCODE_F4 && (mod &&& KMOD_ALT != 0) then
      { gm with finished := true }
    else forward
  else forward

/-- The first loop of `checkEvents`, run over the events that `SDL_PollEvent`
delivers, in order. (The second loop, over navigation events, and the final
`window.resize()` are not modelled.) -/
def checkEvents (shortcutModifier : Nat) (eventTime : Nat) (queue : List SDL_Event)
    (gm : Game) : Game :=
  queue.foldl (checkEvent shortcutModifier eventTime) gm

/-- The fullscreen shortcuts as the property lists them: a key-down event with
Alt+Return, Alt+KP_Enter, Ctrl+Gui+F, or F11 with any modifiers. -/
def isFullscreenShortcut (event : SDL_Event) : Prop :=
  event.type = SDL_KEYDOWN ∧
    ((event.scancode = SDL_SCANCODE_RETURN ∧ event.mod &&& KMOD_ALT ≠ 0) ∨
     (event.scancode = SDL_SCANCODE_KP_ENTER ∧ event.mod &&& KMOD_ALT ≠ 0) ∨
     (event.scancode = SDL_SCANCODE_F ∧ event.mod &&& KMOD_CTRL ≠ 0 ∧ event.mod &&& KMOD_GUI ≠ 0) ∨
     event.scancode = SDL_SCANCODE_F11)

/-- The screenshot shortcuts as the property lists them: a key-down event with
PrintScreen, or F12 with the platform shortcut modifier. -/
def isScreenshotShortcut (shortcutModifier : Nat) (event : SDL_Event) : Prop :=
  event.type = SDL_KEYDOWN ∧
    (event.scancode = SDL_SCANCODE_PRINTSCREEN ∨
     (event.scancode = SDL_SCANCODE_F12 ∧ event.mod &&& shortcutModifier ≠ 0))

/-- The quit shortcut as the property lists it: a key-down event with Alt+F4. -/
def isQuitShortcut (event : SDL_Event) : Prop :=
  event.type = SDL_KEYDOWN ∧ event.scancode = SDL_SCANCODE_F4 ∧ event.mod &&& KMOD_ALT ≠ 0

/-- A key-down event matching one of the globally handled shortcuts. -/
def isGlobalShortcut (shortcutModifier : Nat) (event : SDL_Event) : Prop :=
  isFullscreenShortcut event ∨ isScreenshotShortcut shortcutModifier event ∨ isQuitShortcut event

instance (event : SDL_Event) : Decidable (isFullscreenShortcut event) := by
  unfold isFullscreenShortcut; infer_instance

instance (shortcutModifier : Nat) (event : SDL_Event) :
    Decidable (isScreenshotShortcut shortcutModifier event) := by
  unfold isScreenshotShortcut; infer_instance

instance (event : SDL_Event) : Decidable (isQuitShortcut event) := by
  unfold isQuitShortcut; infer_instance

instance (shortcutModifier : Nat) (event : SDL_Event) :
    Decidable (isGlobalShortcut shortcutModifier event) := by
  unfold isGlobalShortcut; infer_instance

/-! ## Configuration override (game/main.cc, `confOverride`) -/

/-- A `ConfigItem` holding a string list: `sl` is the list that `ConfigItem::sl()`
refers to. The class is declared outside the sources. -/
structure ConfigItem where
  sl : List String
  deriving DecidableEq, Repr

/-- The global `config`: the item stored under each name. -/
abbrev Config := String → ConfigItem

/-- The function template `confOverride(Container const& c, std::string const& name)`:
```
if (c.empty()) return;
ConfigItem::StringList& sl = config[name].sl();
sl.clear();
std::copy(c.begin(), c.end(), std::back_inserter(sl));
```
Returns the configuration afterwards. -/
def confOverride (c : List String) (name : String) (config : Config) : Config :=
  if c.isEmpty then config
  else
    let sl : List String := []
    let sl := c.foldl (fun acc x => acc ++ [x]) sl
    fun key => if key = name then { config key with sl := sl } else config key

/-! ## Concrete states used by the witnesses and counterexamples -/

/-- A buffer at 10 samples per second with 64 samples of storage whose decoder
signalled the end at sample 40 of a stream announced as 100 s long. -/
def bufferEofAt40 : AudioBuffer :=
  { AudioBuffer.init 10 64 with m_eof_pos := 40, m_duration := Double.finite 100 }

/-- A buffer at 10 samples per second whose stream is announced as 3 s long
(30 samples) and whose decoder delivered 100 samples before signalling the end. -/
def bufferLongerThanAnnounced : AudioBuffer :=
  { AudioBuffer.init 10 128 with
    m_write_pos := 100, m_eof_pos := 100, m_duration := Double.finite 3 }

/-- A buffer at 10 samples per second, stream announced as 3 s long, end of
stream not yet signalled by the decoder. -/
def bufferEofUnknown : AudioBuffer :=
  { AudioBuffer.init 10 64 with m_duration := Double.finite 3 }

/-- A buffer at 3 samples per second whose stream is announced as
3002399751580331 s long, end of stream not yet signalled by the decoder. -/
def bufferHugePosition : AudioBuffer :=
  { AudioBuffer.init 3 64 with m_duration := Double.finite 3002399751580331 }

/-- A buffer at 88200 samples per second whose duration is the `double` nearest
to 3.1, which is `6980579422424269 / 2^51` and lies above 3.1; the decoder
signalled the end at sample 300000. -/
def bufferRoundedDuration : AudioBuffer :=
  { AudioBuffer.init 88200 4320256 with
    m_write_pos := 300000, m_eof_pos := 300000
    m_duration := Double.finite (6980579422424269 / 2251799813685248) }

/-- A message formatter standing in for `FFmpeg::Error::msgFmt`. -/
def sampleMsgFmt (self : FFmpeg) (errorValue : Int) (func : String) : String :=
  self.m_filename ++ ": " ++ func ++ " failed with " ++ toString errorValue

/-- A background list of three entries with the cursor at 1. -/
def threeBackgrounds : Backgrounds :=
  { m_bgs := ["a.png", "b.jpg", "c.svg"], m_bgiter := 1, m_dirty := false, m_loading := false }

/-- A background list of three entries with the cursor at the largest value of a
32-bit unsigned type. -/
def wrapBackgrounds : Backgrounds :=
  { m_bgs := ["a.png", "b.jpg", "c.svg"], m_bgiter := 4294967295, m_dirty := false,
    m_loading := false }

/-- A level lookup in the manner of `spdlog::level::from_str` over upper-case names:
unknown names fall back to `off`. -/
def sampleFromStr (name : String) : level_enum :=
  if name = "TRACE" then level_enum.trace
  else if name = "DEBUG" then level_enum.debug
  else if name = "INFO" then level_enum.info
  else if name = "ERROR" then level_enum.err
  else level_enum.off

/-- Upper-casing of ASCII letters, standing in for `UnicodeUtil::toUpper`. -/
def asciiToUpper (s : String) : String := ⟨s.data.map Char.toUpper⟩

/-- A cyclic directory structure: every directory holds the entries `loop` and
`bg.png`, where `loop` is a directory (a link back to the directory itself) and
`bg.png` is a file. -/
def cyclicFs : FileSystem :=
  { list := fun _ => some ["loop", "bg.png"]
    is_directory := fun p => some (p.filename == "loop") }

/-- The state in which the scan thread starts scanning: empty list, loading. -/
def scanStart : Backgrounds :=
  { m_bgs := [], m_bgiter := 0, m_dirty := true, m_loading := true }

/-- A path of 21 components. -/
def deepPath : FsPath := ⟨List.replicate 21 "loop"⟩

/-- A flat directory structure: every directory named `backgrounds` exists and
holds two images and a text file; nothing else is a directory. -/
def flatFs : FileSystem :=
  { list := fun _ => some ["a.PNG", "notes.txt", "b.jpg"]
    is_directory := fun p => some (p.filename == "backgrounds") }

/-- The state at the start of a reload of an object that holds one entry from an
earlier scan and whose cursor is at 5. -/
def reloadStart : Backgrounds :=
  { m_bgs := ["old.png"], m_bgiter := 5, m_dirty := false, m_loading := true }

/-- The state after the reload of `reloadStart` on `flatFs` with the data
directory `usr/share` when the shuffle swaps the two entries found. -/
def reloadDone : Backgrounds :=
  { m_bgs := ["usr/share/backgrounds/b.jpg", "usr/share/backgrounds/a.PNG"], m_bgiter := 0,
    m_dirty := false, m_loading := false }

/-- The key-down event of Return with the left Alt key held (`KMOD_LALT = 0x0100`). -/
def altReturn : SDL_Event :=
  { type := SDL_KEYDOWN, scancode := SDL_SCANCODE_RETURN, mod := 0x0100,
    windowEvent := 0, data1 := 0, data2 := 0 }

/-- The key-down event of F11 without modifiers. -/
def plainF11 : SDL_Event :=
  { type := SDL_KEYDOWN, scancode := SDL_SCANCODE_F11, mod := 0,
    windowEvent := 0, data1 := 0, data2 := 0 }

/-- A game in windowed mode to which no event has been delivered yet. -/
def freshGame : Game :=
  { controllers := [], windowEvents := [], screen := [], finished := false,
    fullscreen := false, take_screenshot := false }

/-- A configuration in which every string list holds the single entry `DATADIR`. -/
def defaultConfig : Config := fun _ => { sl := ["DATADIR"] }

/-! ## Theorems -/

/-- Rounding to the nearest integer does not go below the floor. -/
theorem floor_le_roundHalfEven (m : ℚ) : ⌊m⌋ ≤ roundHalfEven m := by
  unfold roundHalfEven
  split_ifs <;> omega

/-- An integer rounds to itself. -/
theorem roundHalfEven_intCast (k : ℤ) : roundHalfEven (k : ℚ) = k := by
  unfold roundHalfEven
  simp

/-- The scaling of `roundDouble` brings the magnitude into `[2^52, 2^53)`. -/
theorem scaled_bounds (q : ℚ) (hq : q ≠ 0) :
    (2 : ℚ) ^ (52 : ℤ) ≤ |q / 2 ^ (Int.log 2 |q| - 52)| ∧
      |q / 2 ^ (Int.log 2 |q| - 52)| < (2 : ℚ) ^ (53 : ℤ) := by
  have habs : 0 < |q| := abs_pos.mpr hq
  have h1 := Int.zpow_log_le_self (b := 2) (by norm_num) habs
  have h2 := Int.lt_zpow_succ_log_self (b := 2) (by norm_num) |q|
  have hP : (0 : ℚ) < 2 ^ (Int.log 2 |q| - 52) := zpow_pos (by norm_num) _
  rw [abs_div, abs_of_pos hP]
  push_cast at h1 h2
  constructor
  · rw [le_div_iff₀ hP, ← zpow_add₀ (by norm_num : (2 : ℚ) ≠ 0)]
    have : (52 : ℤ) + (Int.log 2 |q| - 52) = Int.log 2 |q| := by ring
    rw [this]; exact h1
  · rw [div_lt_iff₀ hP, ← zpow_add₀ (by norm_num : (2 : ℚ) ≠ 0)]
    have : (53 : ℤ) + (Int.log 2 |q| - 52) = Int.log 2 |q| + 1 := by ring
    rw [this]; exact h2


/-- A double with a smaller exponent than the scaling has a scaled magnitude
below `2^52`. -/
theorem scaled_small (M E e : ℤ) (hM : |M| < 2 ^ 53) (h : E < e) :
    |(M : ℚ) * 2 ^ E / 2 ^ e| < (2 : ℚ) ^ (52 : ℤ) := by
  have h2 : (2 : ℚ) ≠ 0 := by norm_num
  have heq : (M : ℚ) * 2 ^ E / 2 ^ e = (M : ℚ) * 2 ^ (E - e) := by
    rw [zpow_sub₀ h2]; ring
  have hle : (2 : ℚ) ^ (E - e) ≤ 2 ^ (-1 : ℤ) :=
    zpow_le_zpow_right₀ (by norm_num) (by omega)
  have hpos : (0 : ℚ) < 2 ^ (E - e) := zpow_pos (by norm_num) _
  have hMq : |(M : ℚ)| < 2 ^ 53 := by
    have : ((|M| : ℤ) : ℚ) < ((2 ^ 53 : ℤ) : ℚ) := Int.cast_lt.mpr hM
    simpa using this
  rw [heq, abs_mul, abs_of_pos hpos]
  calc |(M : ℚ)| * 2 ^ (E - e) ≤ |(M : ℚ)| * 2 ^ (-1 : ℤ) :=
        mul_le_mul_of_nonneg_left hle (abs_nonneg _)
    _ < 2 ^ 53 * 2 ^ (-1 : ℤ) := by
        apply mul_lt_mul_of_pos_right hMq; norm_num
    _ = 2 ^ (52 : ℤ) := by norm_num

/-- A double with an exponent at least that of the scaling is scaled to an
integer. -/
theorem scaled_int (M E e : ℤ) (h : e ≤ E) :
    (M : ℚ) * 2 ^ E / 2 ^ e = ((M * 2 ^ (E - e).toNat : ℤ) : ℚ) := by
  have h2 : (2 : ℚ) ≠ 0 := by norm_num
  have hnat : ((E - e).toNat : ℤ) = E - e := Int.toNat_of_nonneg (by omega)
  have heq : (M : ℚ) * 2 ^ E / 2 ^ e = (M : ℚ) * 2 ^ (E - e) := by
    rw [zpow_sub₀ h2]; ring
  rw [heq, ← hnat, zpow_natCast]
  push_cast
  rw [hnat]

/-- A double that is at most `x` is at most the double nearest to `x`. -/
theorem le_roundDouble (d x : ℚ) (hd : isDouble d) (hle : d ≤ x) : d ≤ roundDouble x := by
  obtain ⟨M, E, hM, rfl⟩ := hd
  unfold roundDouble
  by_cases hx : x = 0
  · simp only [hx, if_true]; rw [hx] at hle; exact hle
  · simp only [hx, if_false]
    set e : ℤ := Int.log 2 |x| - 52 with he
    have hP : (0 : ℚ) < 2 ^ e := zpow_pos (by norm_num) _
    obtain ⟨hlo, hhi⟩ := scaled_bounds x hx
    rw [← he] at hlo hhi
    have hfl : ((⌊x / 2 ^ e⌋ : ℤ) : ℚ) ≤ (roundHalfEven (x / 2 ^ e) : ℚ) :=
      Int.cast_le.mpr (floor_le_roundHalfEven _)
    have ht : (M : ℚ) * 2 ^ E / 2 ^ e ≤ x / 2 ^ e := div_le_div_of_nonneg_right hle hP.le
    suffices hs : (M : ℚ) * 2 ^ E / 2 ^ e ≤ ((⌊x / 2 ^ e⌋ : ℤ) : ℚ) by
      have := hs.trans hfl
      rwa [div_le_iff₀ hP] at this
    by_cases hE : e ≤ E
    · rw [scaled_int M E e hE] at ht ⊢
      exact Int.cast_le.mpr (Int.le_floor.mpr ht)
    · have hsmall := scaled_small M E e hM (by omega)
      rw [abs_lt] at hsmall
      by_cases hm : 0 ≤ x / 2 ^ e
      · rw [abs_of_nonneg hm] at hlo
        have h52 : ((2 ^ 52 : ℤ) : ℚ) ≤ x / 2 ^ e := by push_cast; exact_mod_cast hlo
        have : ((2 ^ 52 : ℤ) : ℚ) ≤ ((⌊x / 2 ^ e⌋ : ℤ) : ℚ) :=
          Int.cast_le.mpr (Int.le_floor.mpr h52)
        have h3 : (M : ℚ) * 2 ^ E / 2 ^ e < ((2 ^ 52 : ℤ) : ℚ) := by
          push_cast; exact_mod_cast hsmall.2
        exact (h3.trans_le this).le
      · rw [abs_of_neg (not_le.mp hm)] at hlo
        exfalso
        linarith [hsmall.1]

/-- Rounding leaves a double unchanged. -/
theorem roundDouble_of_isDouble (q : ℚ) (hq : isDouble q) : roundDouble q = q := by
  obtain ⟨M, E, hM, rfl⟩ := hq
  unfold roundDouble
  by_cases hx : (M : ℚ) * 2 ^ E = 0
  · simp only [hx, if_true]
  · simp only [hx, if_false]
    set e : ℤ := Int.log 2 |(M : ℚ) * 2 ^ E| - 52 with he
    have hP : (0 : ℚ) < 2 ^ e := zpow_pos (by norm_num) _
    obtain ⟨hlo, hhi⟩ := scaled_bounds _ hx
    rw [← he] at hlo hhi
    by_cases hE : e ≤ E
    · rw [scaled_int M E e hE, roundHalfEven_intCast, ← scaled_int M E e hE]
      field_simp
    · have hsmall := scaled_small M E e hM (by omega)
      exfalso
      exact absurd hlo (not_le.mpr hsmall)


/-- The integers of magnitude up to `2^53` are doubles. -/
theorem isDouble_intCast (n : ℤ) (hn : |n| ≤ 2 ^ 53) : isDouble (n : ℚ) := by
  by_cases h : |n| < 2 ^ 53
  · exact ⟨n, 0, h, by simp⟩
  · have habs : |n| = 2 ^ 53 := le_antisymm hn (not_lt.mp h)
    rcases abs_eq (by norm_num : (0 : ℤ) ≤ 2 ^ 53) |>.mp habs with h1 | h1
    · exact ⟨1, 53, by norm_num, by rw [h1]; norm_num⟩
    · exact ⟨-1, 53, by norm_num, by rw [h1]; norm_num⟩

/-- The values of a 32-bit `unsigned` are doubles. -/
theorem isDouble_natCast (n : ℕ) (hn : n < 2 ^ 32) : isDouble (n : ℚ) := by
  have h := isDouble_intCast (n : ℤ) (by rw [abs_of_nonneg (by positivity)]; omega)
  simpa using h

/-- The value of `roundDouble` once the exponent of the scaling is known. -/
theorem roundDouble_eq (q : ℚ) (e : ℤ) (hq : 0 < q) (h1 : 2 ^ (52 : ℤ) * 2 ^ e ≤ q)
    (h2 : q < 2 ^ (53 : ℤ) * 2 ^ e) :
    roundDouble q = (roundHalfEven (q / 2 ^ e) : ℚ) * 2 ^ e := by
  have h20 : (2 : ℚ) ≠ 0 := by norm_num
  have hlog : Int.log 2 |q| = 52 + e := by
    rw [abs_of_pos hq]
    apply le_antisymm
    · have : Int.log 2 q < 53 + e := by
        rw [← Int.lt_zpow_iff_log_lt (by norm_num) hq]
        push_cast
        rw [zpow_add₀ h20]; exact h2
      omega
    · rw [← Int.zpow_le_iff_le_log (by norm_num) hq]
      push_cast
      rw [zpow_add₀ h20]; exact h1
  unfold roundDouble
  simp only [hq.ne', if_false, hlog]
  have : (52 : ℤ) + e - 52 = e := by ring
  rw [this]

/-- The value of `roundHalfEven` once the floor is known. -/
theorem roundHalfEven_eq (m : ℚ) (f : ℤ) (h1 : (f : ℚ) ≤ m) (h2 : m < f + 1) :
    roundHalfEven m =
      if m - f < 1 / 2 then f else if 1 / 2 < m - f then f + 1
      else if f % 2 = 0 then f else f + 1 := by
  have hf : ⌊m⌋ = f := Int.floor_eq_iff.mpr ⟨h1, h2⟩
  unfold roundHalfEven
  rw [hf]

/-- The conversion of an integer of magnitude up to `2^53` to `double` is exact. -/
theorem roundDouble_intCast (n : ℤ) (hn : |n| ≤ 2 ^ 53) : roundDouble (n : ℚ) = n :=
  roundDouble_of_isDouble _ (isDouble_intCast n hn)

/-- The conversion of a 32-bit `unsigned` to `double` is exact. -/
theorem roundDouble_natCast (n : ℕ) (hn : n < 2 ^ 32) : roundDouble (n : ℚ) = n :=
  roundDouble_of_isDouble _ (isDouble_natCast n hn)

/-- A positive sample rate is not converted to zero. -/
theorem roundDouble_natCast_ne_zero (n : ℕ) (hn : 0 < n) : roundDouble (n : ℚ) ≠ 0 := by
  have h1 : (1 : ℚ) ≤ (n : ℚ) := by exact_mod_cast hn
  have hd : isDouble (1 : ℚ) := ⟨1, 0, by norm_num, by norm_num⟩
  have := le_roundDouble 1 (n : ℚ) hd h1
  intro h0
  rw [h0] at this
  norm_num at this

/-- With a positive sample rate the quotient `double(pos) / m_sps` is finite. -/
theorem positionInSeconds_of_pos (pos : Int) (sps : Nat) (hsps : 0 < sps) :
    positionInSeconds pos sps
      = Double.finite (roundDouble (roundDouble (pos : ℚ) / roundDouble (sps : ℚ))) := by
  unfold positionInSeconds
  simp only [roundDouble_natCast_ne_zero sps hsps, if_false]

/-- With a positive 32-bit sample rate and a position of magnitude up to `2^53`
only the quotient is rounded. -/
theorem positionInSeconds_exact (pos : Int) (sps : Nat) (hsps : 0 < sps) (h32 : sps < 2 ^ 32)
    (hpos : |pos| ≤ 2 ^ 53) :
    positionInSeconds pos sps = Double.finite (roundDouble ((pos : ℚ) / (sps : ℚ))) := by
  rw [positionInSeconds_of_pos pos sps hsps, roundDouble_intCast pos hpos,
    roundDouble_natCast sps h32]

/-- C1: once `m_eof_pos` is set (differs from -1), `eof pos` is true for every
position at or beyond it, whatever the sample rate and the duration are. -/
theorem eof_true_at_or_beyond_eofPos (b : AudioBuffer) (pos : Int)
    (hset : b.m_eof_pos ≠ -1) (hpos : b.m_eof_pos ≤ pos) :
    b.eof pos = true := by
  simp [AudioBuffer.eof, hset, hpos]

/-- Witness for C1: end of stream signalled at sample 40, queried at position 55. -/
theorem eof_true_at_or_beyond_eofPos_witness : bufferEofAt40.eof 55 = true :=
  eof_true_at_or_beyond_eofPos bufferEofAt40 55 (by decide) (by decide)

/-- C2, counterexample: with `m_eof_pos = 100` set, 10 samples per second and a
duration of 3 s, position 50 lies before `m_eof_pos` and is reported as end of
stream all the same, because `50 / 10 ≥ 3`. -/
theorem eof_before_eofPos_counterexample :
    bufferLongerThanAnnounced.m_eof_pos ≠ -1 ∧ (0 : Int) ≤ 50 ∧
      50 < bufferLongerThanAnnounced.m_eof_pos ∧ 0 < bufferLongerThanAnnounced.m_sps ∧
      bufferLongerThanAnnounced.eof 50 = true := by
  refine ⟨by decide, by decide, by decide, by decide, ?_⟩
  have hq : positionInSeconds 50 10 = Double.finite 5 := by
    rw [positionInSeconds_exact 50 10 (by norm_num) (by norm_num) (by norm_num)]
    have h5 : ((50 : ℤ) : ℚ) / ((10 : ℕ) : ℚ) = ((5 : ℤ) : ℚ) := by norm_num
    rw [h5, roundDouble_intCast 5 (by norm_num)]
    norm_num
  simp only [AudioBuffer.eof, bufferLongerThanAnnounced, AudioBuffer.init, hq, Double.ge]
  norm_num

/-- C2, amended: when `m_eof_pos` is set, the sample rate is positive and
`0 ≤ pos < m_eof_pos`, `eof pos` is false exactly when the comparison
`double(pos) / m_sps >= m_duration`, made in `double` arithmetic, is false. For
a finite duration `d` that is: exactly when the quotient, operands and quotient
rounded to nearest, is below `d`; and for a 32-bit sample rate, a position up
to `2^53` and `d` a `double`, `eof pos = false` then implies `pos / m_sps < d`
in exact arithmetic. -/
theorem eof_false_before_eofPos_iff (b : AudioBuffer) (pos : Int)
    (_hset : b.m_eof_pos ≠ -1) (h0 : 0 ≤ pos) (hlt : pos < b.m_eof_pos)
    (hsps : 0 < b.m_sps) :
    (b.eof pos = false ↔ (positionInSeconds pos b.m_sps).ge b.m_duration = false) ∧
    (∀ d : ℚ, b.m_duration = Double.finite d →
      (b.eof pos = false ↔
        roundDouble (roundDouble (pos : ℚ) / roundDouble (b.m_sps : ℚ)) < d) ∧
      (b.m_sps < 2 ^ 32 → pos ≤ 2 ^ 53 → isDouble d → b.eof pos = false →
        (pos : ℚ) / (b.m_sps : ℚ) < d)) := by
  have hnot : ¬ b.m_eof_pos ≤ pos := not_le.mpr hlt
  have hgen : b.eof pos = false ↔ (positionInSeconds pos b.m_sps).ge b.m_duration = false := by
    simp [AudioBuffer.eof, hnot]
  refine ⟨hgen, ?_⟩
  intro d hdur
  have hiff : b.eof pos = false ↔
      roundDouble (roundDouble (pos : ℚ) / roundDouble (b.m_sps : ℚ)) < d := by
    rw [hgen, hdur, positionInSeconds_of_pos pos b.m_sps hsps]
    simp [Double.ge]
  refine ⟨hiff, ?_⟩
  intro h32 hpos hd hfalse
  by_contra hcon
  have hle : d ≤ (pos : ℚ) / (b.m_sps : ℚ) := not_lt.mp hcon
  have hround := le_roundDouble _ _ hd hle
  have habs : |pos| ≤ 2 ^ 53 := by rw [abs_of_nonneg h0]; exact hpos
  have hlt2 := hiff.mp hfalse
  rw [roundDouble_intCast pos habs, roundDouble_natCast b.m_sps h32] at hlt2
  exact absurd hround (not_le.mpr hlt2)

/-- Witness for C2 (amended): 88200 samples per second, the duration the `double`
nearest to 3.1, end of stream signalled at sample 300000. Position 273420 lies
before `m_eof_pos` and `273420 / 88200 = 3.1` lies below the duration in exact
arithmetic, but the quotient rounds to the duration and `eof` is true. -/
theorem eof_false_before_eofPos_iff_witness :
    bufferRoundedDuration.m_duration = Double.finite (6980579422424269 / 2251799813685248) ∧
      ((273420 : ℤ) : ℚ) / (bufferRoundedDuration.m_sps : ℚ)
        < 6980579422424269 / 2251799813685248 ∧
      bufferRoundedDuration.eof 273420 = true := by
  have h := ((eof_false_before_eofPos_iff bufferRoundedDuration 273420 (by decide) (by decide)
    (by decide) (by decide)).2 (6980579422424269 / 2251799813685248) rfl).1
  have hs : bufferRoundedDuration.m_sps = 88200 := rfl
  have hr : roundDouble (roundDouble ((273420 : ℤ) : ℚ)
      / roundDouble ((bufferRoundedDuration.m_sps : ℕ) : ℚ))
      = 6980579422424269 / 2251799813685248 := by
    rw [hs, roundDouble_intCast 273420 (by norm_num), roundDouble_natCast 88200 (by norm_num)]
    have h31 : ((273420 : ℤ) : ℚ) / ((88200 : ℕ) : ℚ) = 31 / 10 := by norm_num
    rw [h31, roundDouble_eq (31 / 10) (-51) (by norm_num) (by norm_num) (by norm_num)]
    rw [roundHalfEven_eq _ 6980579422424268 (by norm_num) (by norm_num)]
    norm_num
  refine ⟨rfl, by rw [hs]; norm_num, ?_⟩
  cases he : bufferRoundedDuration.eof 273420
  · have hlt := h.mp he
    rw [hr] at hlt
    exact absurd hlt (lt_irrefl _)
  · rfl

/-- C3, counterexample: at 3 samples per second, a duration of 3002399751580331 s
and `m_eof_pos = -1`, the position `2^53 + 1 = 9007199254740993` satisfies
`pos / m_sps ≥ m_duration` in exact arithmetic (with equality), and `eof` is
false: `double(pos)` is `2^53` and the quotient rounds to 3002399751580330.5. -/
theorem eof_past_duration_counterexample :
    bufferHugePosition.m_eof_pos = -1 ∧ 0 < bufferHugePosition.m_sps ∧
      bufferHugePosition.m_duration = Double.finite 3002399751580331 ∧
      (3002399751580331 : ℚ)
        ≤ ((9007199254740993 : ℤ) : ℚ) / (bufferHugePosition.m_sps : ℚ) ∧
      bufferHugePosition.eof 9007199254740993 = false := by
  have hs : bufferHugePosition.m_sps = 3 := rfl
  have hd : bufferHugePosition.m_duration = Double.finite 3002399751580331 := rfl
  refine ⟨rfl, by decide, rfl, by rw [hs]; norm_num, ?_⟩
  have hx : roundDouble ((9007199254740993 : ℤ) : ℚ) = 9007199254740992 := by
    have hc : ((9007199254740993 : ℤ) : ℚ) = 9007199254740993 := by norm_num
    rw [hc, roundDouble_eq 9007199254740993 1 (by norm_num) (by norm_num) (by norm_num)]
    rw [roundHalfEven_eq _ 4503599627370496 (by norm_num) (by norm_num)]
    norm_num
  have hq : roundDouble (9007199254740992 / 3) = 6004799503160661 / 2 := by
    rw [roundDouble_eq _ (-1) (by norm_num) (by norm_num) (by norm_num)]
    rw [roundHalfEven_eq _ 6004799503160661 (by norm_num) (by norm_num)]
    norm_num
  have hp : positionInSeconds 9007199254740993 3 = Double.finite (6004799503160661 / 2) := by
    rw [positionInSeconds_of_pos _ 3 (by norm_num), hx, roundDouble_natCast 3 (by norm_num)]
    have h3 : ((3 : ℕ) : ℚ) = 3 := by norm_num
    rw [h3, hq]
  have he : bufferHugePosition.m_eof_pos = -1 := rfl
  simp only [AudioBuffer.eof, hs, hd, he, hp, Double.ge]
  norm_num

/-- C3, amended: for a positive (32-bit) sample rate, a position of magnitude up to
`2^53`, which `double(pos)` represents exactly, and a finite duration `d` that
is a `double`, every position with `pos / m_sps ≥ d` in exact arithmetic is end
of stream, whatever `m_eof_pos` holds, -1 included. -/
theorem eof_true_past_duration (b : AudioBuffer) (pos : Int) (d : ℚ) (hsps : 0 < b.m_sps)
    (h32 : b.m_sps < 2 ^ 32) (hpos : |pos| ≤ 2 ^ 53)
    (hdur : b.m_duration = Double.finite d) (hd : isDouble d)
    (hle : d ≤ (pos : ℚ) / (b.m_sps : ℚ)) :
    b.eof pos = true := by
  have hround := le_roundDouble _ _ hd hle
  simp [AudioBuffer.eof, positionInSeconds_exact pos b.m_sps hsps h32 hpos, hdur, Double.ge,
    hround]

/-- Witness for C3 (amended): `m_eof_pos = -1`, 3 s at 10 samples per second,
position 30. -/
theorem eof_true_past_duration_witness :
    bufferEofUnknown.m_eof_pos = -1 ∧ bufferEofUnknown.eof 30 = true :=
  ⟨rfl, eof_true_past_duration bufferEofUnknown 30 3 (by decide) (by decide) (by norm_num)
    rfl ⟨3, 0, by norm_num, by norm_num⟩ (by simp only [bufferEofUnknown, AudioBuffer.init]; norm_num)⟩

/-- C4: `check` throws `Error(*this, errorCode, func)` exactly when `errorCode` is
negative, returns normally exactly when `errorCode ≥ 0` (0 included), and leaves
the object as it was in both cases. -/
theorem check_throws_iff_negative (msgFmt : FFmpeg → Int → String → String)
    (self : FFmpeg) (errorCode : Int) (func : String) :
    ((FFmpeg.check msgFmt self errorCode func).1
        = Except.error (FFmpeg.Error.make msgFmt self errorCode func) ↔ errorCode < 0) ∧
    ((FFmpeg.check msgFmt self errorCode func).1 = Except.ok () ↔ 0 ≤ errorCode) ∧
    (FFmpeg.check msgFmt self errorCode func).2 = self := by
  unfold FFmpeg.check
  by_cases h : errorCode < 0
  · have h2 : ¬ 0 ≤ errorCode := not_le.mpr h
    simp [h, h2]
  · have h2 : 0 ≤ errorCode := not_lt.mp h
    simp [h, h2]

/-- C6: in the initial state of an `AudioBuffer` both cursors are 0, `m_eof_pos` is
-1, and the queue invariant `readPos ≤ writePos ∧ writePos - readPos ≤ capacity`
holds for every capacity, the default 4320256 included. -/
theorem initial_queueInvariant (sps size : Nat) :
    (AudioBuffer.init sps size).queueInvariant ∧
    (AudioBuffer.init sps AudioBuffer.defaultSize).queueInvariant ∧
    AudioBuffer.defaultSize = 4320256 ∧
    (AudioBuffer.init sps size).capacity = size ∧
    (AudioBuffer.init sps size).m_read_pos = 0 ∧
    (AudioBuffer.init sps size).m_write_pos = 0 ∧
    (AudioBuffer.init sps size).m_eof_pos = -1 := by
  simp [AudioBuffer.queueInvariant, AudioBuffer.init, AudioBuffer.defaultSize]

/-- C8, counterexample: three entries, the cursor at `2^32 - 1`, the largest value
of a 32-bit unsigned cursor. The call returns the entry at index 0 and leaves
the cursor at 0, while `(cursor + 1) % 3` is 1 (the entry "b.jpg") and the
cursor advanced by one would be `2^32`. -/
theorem getRandom_wrap_counterexample :
    wrapBackgrounds.m_bgs ≠ [] ∧
      (wrapBackgrounds.m_bgiter + 1) % wrapBackgrounds.m_bgs.length = 1 ∧
      wrapBackgrounds.m_bgs.get? 1 = some "b.jpg" ∧
      wrapBackgrounds.getRandomMod (2 ^ 32)
        = (Backgrounds.Outcome.value "a.png", { wrapBackgrounds with m_bgiter := 0 }) ∧
      (wrapBackgrounds.getRandomMod (2 ^ 32)).2.m_bgiter ≠ wrapBackgrounds.m_bgiter + 1 := by
  decide

/-- While the incremented cursor stays below the modulus, the call with the
machine cursor does what the call with the natural-number cursor does. -/
theorem getRandomMod_eq_getRandom (modulus : Nat) (self : Backgrounds)
    (h : self.m_bgiter + 1 < modulus) : self.getRandomMod modulus = self.getRandom := by
  unfold Backgrounds.getRandomMod Backgrounds.getRandom
  rw [Nat.mod_eq_of_lt h]

/-- C8, amended: `getRandom` throws the runtime error exactly when the list is
empty and then leaves the object unchanged; on a non-empty list of `n` entries,
if the cursor is not at the largest value of its type (no wrap-around), it
returns the entry at index `(m_bgiter + 1) % n`, a member of the list, and
leaves the object with the cursor advanced by one and nothing else changed.
`vector::at` never throws. -/
theorem getRandomMod_spec (modulus : Nat) (self : Backgrounds) :
    (self.m_bgs = [] →
      self.getRandomMod modulus
        = (Backgrounds.Outcome.runtime_error "No random backgrounds available", self)) ∧
    (self.m_bgs ≠ [] → self.m_bgiter + 1 < modulus →
      ∃ s, self.m_bgs.get? ((self.m_bgiter + 1) % self.m_bgs.length) = some s ∧
        s ∈ self.m_bgs ∧
        self.getRandomMod modulus
          = (Backgrounds.Outcome.value s, { self with m_bgiter := self.m_bgiter + 1 })) ∧
    ((∃ what, (self.getRandomMod modulus).1 = Backgrounds.Outcome.runtime_error what) ↔
      self.m_bgs = []) ∧
    (self.getRandomMod modulus).1 ≠ Backgrounds.Outcome.out_of_range := by
  have hgen : self.m_bgs ≠ [] →
      ∃ s, s ∈ self.m_bgs ∧
        self.getRandomMod modulus
          = (Backgrounds.Outcome.value s,
              { self with m_bgiter := (self.m_bgiter + 1) % modulus }) ∧
        self.m_bgs.get? (((self.m_bgiter + 1) % modulus) % self.m_bgs.length) = some s := by
    intro h
    have hpos : 0 < self.m_bgs.length := List.length_pos.mpr h
    have hlt : ((self.m_bgiter + 1) % modulus) % self.m_bgs.length < self.m_bgs.length :=
      Nat.mod_lt _ hpos
    refine ⟨self.m_bgs.get ⟨_, hlt⟩, List.get_mem _ _ _, ?_, List.get?_eq_get hlt⟩
    have hemp : self.m_bgs.isEmpty = false := by
      cases hb : self.m_bgs with
      | nil => exact absurd hb h
      | cons a l => rfl
    simp only [Backgrounds.getRandomMod, hemp, Bool.false_eq_true, if_false]
    rw [List.get?_eq_get hlt]
  have hemp : self.m_bgs = [] →
      self.getRandomMod modulus
        = (Backgrounds.Outcome.runtime_error "No random backgrounds available", self) := by
    intro h
    simp [Backgrounds.getRandomMod, h]
  refine ⟨hemp, ?_, ?_, ?_⟩
  · intro h hm
    obtain ⟨s, hmem, hs, hget⟩ := hgen h
    rw [Nat.mod_eq_of_lt hm] at hs hget
    exact ⟨s, hget, hmem, hs⟩
  · constructor
    · rintro ⟨what, hw⟩
      by_contra hcon
      obtain ⟨s, -, hs, -⟩ := hgen hcon
      rw [hs] at hw
      cases hw
    · intro h
      exact ⟨_, by rw [hemp h]⟩
  · by_cases h : self.m_bgs = []
    · rw [hemp h]; simp
    · obtain ⟨s, -, hs, -⟩ := hgen h
      rw [hs]; simp

/-- Witness for C8 (amended): three entries, cursor at 1, a 32-bit cursor: the call
returns the entry at index 2 and moves the cursor to 2. -/
theorem getRandomMod_spec_witness :
    ∃ s, threeBackgrounds.m_bgs.get? ((threeBackgrounds.m_bgiter + 1) % threeBackgrounds.m_bgs.length)
          = some s ∧
        s ∈ threeBackgrounds.m_bgs ∧
        threeBackgrounds.getRandomMod (2 ^ 32)
          = (Backgrounds.Outcome.value s,
              { threeBackgrounds with m_bgiter := threeBackgrounds.m_bgiter + 1 }) :=
  (getRandomMod_spec (2 ^ 32) threeBackgrounds).2.1 (by decide) (by decide)

/-- C9: the level handed to the logger is `off` only if the upper-cased argument is
exactly "OFF"; an argument other than "OFF" for which the lookup gives its
fallback `off` yields `warn`; an argument the lookup finds at another level keeps
that level; and the empty argument, left unchanged by upper-casing and unknown
to the lookup, yields `warn`. -/
theorem consoleLogLevel_spec (toUpper : String → String) (from_str : String → level_enum)
    (logLevel : String) :
    (consoleLogLevel toUpper from_str logLevel = level_enum.off → toUpper logLevel = "OFF") ∧
    (from_str (toUpper logLevel) = level_enum.off → toUpper logLevel ≠ "OFF" →
      consoleLogLevel toUpper from_str logLevel = level_enum.warn) ∧
    (from_str (toUpper logLevel) ≠ level_enum.off →
      consoleLogLevel toUpper from_str logLevel = from_str (toUpper logLevel)) ∧
    (toUpper "" = "" → from_str "" = level_enum.off →
      consoleLogLevel toUpper from_str "" = level_enum.warn) := by
  refine ⟨?_, ?_, ?_, ?_⟩
  · intro h
    by_contra hne
    by_cases hoff : from_str (toUpper logLevel) = level_enum.off
    · simp [consoleLogLevel, hne, hoff] at h
    · simp [consoleLogLevel, hoff] at h
  · intro hoff hne
    simp [consoleLogLevel, hne, hoff]
  · intro hoff
    simp [consoleLogLevel, hoff]
  · intro hup hoff
    simp [consoleLogLevel, hup, hoff]

/-- Witness for C9: the argument "verbose" is unknown to the lookup and yields
`warn`. -/
theorem consoleLogLevel_spec_witness :
    consoleLogLevel asciiToUpper sampleFromStr "verbose" = level_enum.warn :=
  (consoleLogLevel_spec asciiToUpper sampleFromStr "verbose").2.1 (by decide) (by decide)

/-- The loop `scanEntries` calls `recurse` only on entries of `parent`: two
`recurse` functions that agree on the paths `parent / e` give the same loop. -/
theorem scanEntries_congr (fs : FileSystem) (parent : FsPath)
    (recurse recurse2 : FsPath → Backgrounds → Option Backgrounds) (entries : List String) :
    ∀ (self : Backgrounds),
      (∀ e ∈ entries, ∀ s, recurse (parent.append e) s = recurse2 (parent.append e) s) →
      Backgrounds.scanEntries recurse fs parent entries self
        = Backgrounds.scanEntries recurse2 fs parent entries self := by
  induction entries with
  | nil => intro self _; rfl
  | cons e es ih =>
    intro self h
    have hes : ∀ x ∈ es, ∀ s, recurse (parent.append x) s = recurse2 (parent.append x) s :=
      fun x hx s => h x (List.mem_cons_of_mem e hx) s
    have he := h e (List.mem_cons_self e es)
    simp only [Backgrounds.scanEntries]
    rw [he self]
    split
    · rfl
    · split
      · rfl
      · split
        · rfl
        · exact ih _ hes
      · split
        · rfl
        · split
          · exact ih _ hes
          · exact ih _ hes

/-- The loop `scanEntries` returns whenever every recursive call it can make
returns. -/
theorem scanEntries_returns (fs : FileSystem) (parent : FsPath)
    (recurse : FsPath → Backgrounds → Option Backgrounds) (entries : List String) :
    ∀ (self : Backgrounds),
      (∀ e ∈ entries, ∀ s, ∃ r, recurse (parent.append e) s = some r) →
      ∃ r, Backgrounds.scanEntries recurse fs parent entries self = some r := by
  induction entries with
  | nil => intro self _; exact ⟨self, rfl⟩
  | cons e es ih =>
    intro self h
    have hes : ∀ x ∈ es, ∀ s, ∃ r, recurse (parent.append x) s = some r :=
      fun x hx s => h x (List.mem_cons_of_mem e hx) s
    obtain ⟨r1, hr1⟩ := h e (List.mem_cons_self e es) self
    simp only [Backgrounds.scanEntries]
    rw [hr1]
    split
    · exact ⟨_, rfl⟩
    · split
      · exact ⟨_, rfl⟩
      · exact ih _ hes
      · split
        · exact ⟨_, rfl⟩
        · split
          · exact ih _ hes
          · exact ih _ hes

/-- A child path has one more component than its parent. -/
theorem distance_append (parent : FsPath) (name : String) :
    (parent.append name).distance = parent.distance + 1 := by
  simp [FsPath.append, FsPath.distance]

/-- With more than `21 - distance` levels of recursion available the scan of
`parent` returns. -/
theorem reload_internal_returns (fs : FileSystem) :
    ∀ (depth : Nat) (parent : FsPath) (self : Backgrounds),
      21 - parent.distance < depth →
      ∃ r, Backgrounds.reload_internal fs depth parent self = some r := by
  intro depth
  induction depth with
  | zero => intro parent self h; exact absurd h (Nat.not_lt_zero _)
  | succ d ih =>
    intro parent self h
    simp only [Backgrounds.reload_internal]
    split
    · exact ⟨_, rfl⟩
    · rename_i hdist
      split
      · exact ⟨_, rfl⟩
      · apply scanEntries_returns
        intro e _ s
        apply ih
        rw [distance_append]
        omega

/-- Granting one more level of recursion than needed does not change the result. -/
theorem reload_internal_succ (fs : FileSystem) :
    ∀ (depth : Nat) (parent : FsPath) (self : Backgrounds),
      21 - parent.distance < depth →
      Backgrounds.reload_internal fs (depth + 1) parent self
        = Backgrounds.reload_internal fs depth parent self := by
  intro depth
  induction depth with
  | zero => intro parent self h; exact absurd h (Nat.not_lt_zero _)
  | succ d ih =>
    intro parent self h
    rw [Backgrounds.reload_internal, Backgrounds.reload_internal]
    split
    · rfl
    · rename_i hdist
      split
      · rfl
      · apply scanEntries_congr
        intro e _ s
        apply ih
        rw [distance_append]
        omega

/-- Any number of levels above the needed one gives the same result. -/
theorem reload_internal_depth_irrelevant (fs : FileSystem) (parent : FsPath)
    (self : Backgrounds) (depth : Nat) (h : 21 - parent.distance < depth) :
    ∀ k, Backgrounds.reload_internal fs (depth + k) parent self
      = Backgrounds.reload_internal fs depth parent self := by
  intro k
  induction k with
  | zero => rfl
  | succ k ih =>
    rw [← Nat.add_assoc, reload_internal_succ fs (depth + k) parent self (by omega), ih]

/-- C10: the recursive scan terminates on every directory structure, cyclic ones
included: for every file system, path and state the call returns with at most
`21 - distance + 1` nested calls, and granting more changes nothing; each
recursive call is on a path `parent / e` for an entry `e` of `parent`, which has
one more component than `parent`; and for a path of more than 20 components the
call returns at once with the state (the list included) unchanged. -/
theorem reload_internal_terminates (fs : FileSystem) (parent : FsPath) (self : Backgrounds) :
    (∃ r, Backgrounds.reload_internal fs (21 - parent.distance + 1) parent self = some r) ∧
    (∀ depth, 21 - parent.distance + 1 ≤ depth →
      Backgrounds.reload_internal fs depth parent self
        = Backgrounds.reload_internal fs (21 - parent.distance + 1) parent self) ∧
    (∀ name, (parent.append name).distance = parent.distance + 1) ∧
    (∀ (recurse recurse2 : FsPath → Backgrounds → Option Backgrounds) (entries : List String),
      (∀ e ∈ entries, ∀ s, recurse (parent.append e) s = recurse2 (parent.append e) s) →
      Backgrounds.scanEntries recurse fs parent entries self
        = Backgrounds.scanEntries recurse2 fs parent entries self) ∧
    (20 < parent.distance →
      ∀ depth, Backgrounds.reload_internal fs (depth + 1) parent self = some self) := by
  refine ⟨?_, ?_, ?_, ?_, ?_⟩
  · exact reload_internal_returns fs _ parent self (Nat.lt_succ_self _)
  · intro depth hd
    obtain ⟨k, rfl⟩ := Nat.exists_eq_add_of_le hd
    exact reload_internal_depth_irrelevant fs parent self _ (Nat.lt_succ_self _) k
  · exact distance_append parent
  · intro recurse recurse2 entries h
    exact scanEntries_congr fs parent recurse recurse2 entries self h
  · intro h depth
    simp [Backgrounds.reload_internal, h]

/-- Witness for C10: on the cyclic structure the scan started at `backgrounds`
returns, and on a path of 21 components it returns the state unchanged. -/
theorem reload_internal_terminates_witness :
    (∃ r, Backgrounds.reload_internal cyclicFs
        (21 - (FsPath.mk ["backgrounds"]).distance + 1) ⟨["backgrounds"]⟩ scanStart = some r) ∧
      Backgrounds.reload_internal cyclicFs 1 deepPath scanStart = some scanStart :=
  ⟨(reload_internal_terminates cyclicFs ⟨["backgrounds"]⟩ scanStart).1,
    (reload_internal_terminates cyclicFs deepPath scanStart).2.2.2.2 (by decide) 0⟩

/-- Swapping two elements of a list gives a permutation of the list. -/
theorem iter_swap_perm (l : List String) (i j : Nat) :
    (Backgrounds.iter_swap l i j).Perm l := by
  unfold Backgrounds.iter_swap
  split
  · rename_i x y hx hy
    obtain ⟨hi, hxi⟩ := List.get?_eq_some.mp hx
    obtain ⟨hj, hyj⟩ := List.get?_eq_some.mp hy
    rw [List.perm_iff_count]
    intro b
    have hj2 : j < (l.set i y).length := by simpa using hj
    have hjy : (l.set i y)[j] = y := by
      rw [List.getElem_set]
      split
      · rfl
      · exact hyj
    have hxle : (if l[i] == b then 1 else 0) ≤ l.count b := by
      split
      · rename_i h
        have hb : l[i] = b := by simpa using h
        have hmem : b ∈ l := hb ▸ List.getElem_mem _
        exact List.count_pos_iff.mpr hmem
      · exact Nat.zero_le _
    have hxi2 : l[i] = x := hxi
    rw [List.count_set _ _ _ _ hj2, List.count_set _ _ _ _ hi, hjy]
    rw [hxi2] at hxle ⊢
    omega
  · exact List.Perm.refl _

/-- Whatever the swaps are, `shuffle` gives a permutation of the list. -/
theorem shuffle_perm (swaps : List (Nat × Nat)) :
    ∀ l : List String, (Backgrounds.shuffle swaps l).Perm l := by
  induction swaps with
  | nil => intro l; exact List.Perm.refl _
  | cons ij rest ih =>
    intro l
    have h1 : Backgrounds.shuffle (ij :: rest) l
        = Backgrounds.shuffle rest (Backgrounds.iter_swap l ij.1 ij.2) := rfl
    rw [h1]
    exact (ih _).trans (iter_swap_perm l ij.1 ij.2)

/-- The state in which a completed full reload leaves the object: the shuffled
scan result, cursor 0, both flags false. -/
theorem reload_internal_full_eq (fs : FileSystem) (paths : List FsPath)
    (swaps : List (Nat × Nat)) (self r : Backgrounds)
    (h : Backgrounds.reload_internal_full fs paths swaps self = some r) :
    ∃ scanned,
      Backgrounds.reload_internal_paths fs paths { self with m_bgs := [], m_dirty := true }
        = some scanned ∧
      r = { m_bgs := Backgrounds.shuffle swaps scanned.m_bgs, m_bgiter := 0,
            m_dirty := false, m_loading := false } := by
  unfold Backgrounds.reload_internal_full at h
  cases hs : Backgrounds.reload_internal_paths fs paths { self with m_bgs := [], m_dirty := true } with
  | none => simp [hs] at h
  | some scanned =>
    simp only [hs, Option.some.injEq] at h
    exact ⟨scanned, rfl, h.symm⟩

/-- The loop over the paths runs to its end when `fs::is_directory` throws on
none of the candidate directories. -/
theorem reload_internal_paths_returns (fs : FileSystem) (paths : List FsPath) :
    ∀ self : Backgrounds,
      (∀ p ∈ paths, fs.is_directory (p.append "backgrounds") ≠ none) →
      ∃ r, Backgrounds.reload_internal_paths fs paths self = some r := by
  induction paths with
  | nil => intro self _; exact ⟨self, rfl⟩
  | cons p rest ih =>
    intro self h
    have hrest : ∀ q ∈ rest, fs.is_directory (q.append "backgrounds") ≠ none :=
      fun q hq => h q (List.mem_cons_of_mem p hq)
    have hp := h p (List.mem_cons_self p rest)
    simp only [Backgrounds.reload_internal_paths]
    split
    · exact ⟨_, rfl⟩
    · split
      · rename_i hnone
        exact absurd hnone hp
      · exact ih _ hrest
      · obtain ⟨r1, hr1⟩ := reload_internal_returns fs
          (21 - (p.append "backgrounds").distance + 1) (p.append "backgrounds") self
          (Nat.lt_succ_self _)
        rw [hr1]
        exact ih _ hrest

/-- On a non-empty list `getRandom` returns the entry at `(m_bgiter + 1) % n` and
advances the cursor. -/
theorem getRandom_eq (l : List String) (c : Nat) (d ld : Bool) (hne : l ≠ []) :
    Backgrounds.getRandom ⟨l, c, d, ld⟩
      = (Backgrounds.Outcome.value (l.getD ((c + 1) % l.length) ""), ⟨l, c + 1, d, ld⟩) := by
  have hpos : 0 < l.length := List.length_pos.mpr hne
  have hlt : (c + 1) % l.length < l.length := Nat.mod_lt _ hpos
  have hemp : l.isEmpty = false := by
    cases l with
    | nil => exact absurd rfl hne
    | cons a t => rfl
  simp only [Backgrounds.getRandom, hemp, Bool.false_eq_true, if_false]
  rw [List.get?_eq_get hlt]
  simp [List.getElem?_eq_getElem hlt]

/-- The outcomes of `k` consecutive calls of `getRandom` on a non-empty list. -/
theorem getRandomN_eq (l : List String) (d ld : Bool) (hne : l ≠ []) :
    ∀ (k c : Nat), Backgrounds.getRandomN k ⟨l, c, d, ld⟩
      = ((List.range k).map
          (fun j => Backgrounds.Outcome.value (l.getD ((c + 1 + j) % l.length) "")),
         ⟨l, c + k, d, ld⟩) := by
  intro k
  induction k with
  | zero => intro c; rfl
  | succ k ih =>
    intro c
    simp only [Backgrounds.getRandomN]
    rw [getRandom_eq l c d ld hne]
    simp only [ih (c + 1)]
    rw [List.range_succ_eq_map]
    simp only [List.map_cons, List.map_map, Nat.add_zero]
    refine Prod.ext ?_ ?_
    · simp only [List.cons.injEq, true_and]
      apply List.map_congr_left
      intro j _
      simp only [Function.comp]
      rw [show c + 1 + 1 + j = c + 1 + (j + 1) by omega]
    · simp only [Backgrounds.mk.injEq, true_and, and_true]
      omega

/-- Reading a list round at the indices `(m + j) % n` for `j = 0 .. n-1` gives the
list rotated by `m`. -/
theorem map_range_getD_eq_rotate (l : List String) (m : Nat) :
    (List.range l.length).map (fun j => l.getD ((m + j) % l.length) "") = l.rotate m := by
  apply List.ext_getElem
  · simp
  · intro i h1 h2
    have hi : i < l.length := by simpa using h1
    have hlt : (m + i) % l.length < l.length := Nat.mod_lt _ (by omega)
    rw [List.getElem_rotate]
    simp only [List.getElem_map, List.getElem_range]
    rw [List.getD_eq_getElem _ _ hlt]
    congr 1
    rw [Nat.add_comm]

/-- The indices `(m + j) % n` for `j < n` are pairwise distinct. -/
theorem mod_index_injective (n m j k : Nat) (hj : j < n) (hk : k < n)
    (h : (m + j) % n = (m + k) % n) : j = k := by
  have h1 : j ≡ k [MOD n] := Nat.ModEq.add_left_cancel' m h
  exact Nat.ModEq.eq_of_lt_of_lt h1 hj hk

/-- C11: on a non-empty list of `n` entries, `n` consecutive calls of `getRandom`
return the entries at the indices `(m_bgiter + 1 + k) % n`, `k = 0 .. n-1`, which
are pairwise distinct and are all the indices below `n`; the returned entries
are the list rotated, a permutation of the list, so every entry is returned
exactly once, and the cursor ends `n` further. After a completed full reload the
first call returns the entry at index `1 % n`. -/
theorem getRandomN_round_robin (self : Backgrounds) (hne : self.m_bgs ≠ []) :
    (self.getRandomN self.m_bgs.length).1
      = (self.m_bgs.rotate (self.m_bgiter + 1)).map Backgrounds.Outcome.value ∧
    (∀ k, k < self.m_bgs.length →
      ∃ s, self.m_bgs.get? ((self.m_bgiter + 1 + k) % self.m_bgs.length) = some s ∧
        (self.getRandomN self.m_bgs.length).1.get? k = some (Backgrounds.Outcome.value s)) ∧
    (∀ j k, j < self.m_bgs.length → k < self.m_bgs.length →
      (self.m_bgiter + 1 + j) % self.m_bgs.length = (self.m_bgiter + 1 + k) % self.m_bgs.length →
      j = k) ∧
    ((List.range self.m_bgs.length).map
      (fun k => (self.m_bgiter + 1 + k) % self.m_bgs.length)).Perm (List.range self.m_bgs.length) ∧
    (self.m_bgs.rotate (self.m_bgiter + 1)).Perm self.m_bgs ∧
    (self.getRandomN self.m_bgs.length).2
      = { self with m_bgiter := self.m_bgiter + self.m_bgs.length } ∧
    (∀ (fs : FileSystem) (paths : List FsPath) (swaps : List (Nat × Nat))
       (start r : Backgrounds),
      Backgrounds.reload_internal_full fs paths swaps start = some r → r.m_bgs ≠ [] →
      ∃ s, r.m_bgs.get? (1 % r.m_bgs.length) = some s ∧
        r.getRandom = (Backgrounds.Outcome.value s, { r with m_bgiter := 1 })) := by
  obtain ⟨l, c, d, ld⟩ := self
  simp only at hne ⊢
  have hpos : 0 < l.length := List.length_pos.mpr hne
  have hN := getRandomN_eq l d ld hne l.length c
  have hrot := map_range_getD_eq_rotate l (c + 1)
  have hlist : (Backgrounds.getRandomN l.length ⟨l, c, d, ld⟩).1
      = (l.rotate (c + 1)).map Backgrounds.Outcome.value := by
    rw [hN, ← hrot, List.map_map]
    rfl
  have hinj : ∀ j k, j < l.length → k < l.length →
      (c + 1 + j) % l.length = (c + 1 + k) % l.length → j = k :=
    fun j k hj hk h => mod_index_injective l.length (c + 1) j k hj hk h
  refine ⟨hlist, ?_, hinj, ?_, List.rotate_perm l (c + 1), ?_, ?_⟩
  · intro k hk
    have hlt : (c + 1 + k) % l.length < l.length := Nat.mod_lt _ hpos
    refine ⟨l[(c + 1 + k) % l.length], by simp [List.getElem?_eq_getElem hlt], ?_⟩
    rw [hN]
    simp only [List.get?_eq_getElem?]
    rw [List.getElem?_map, List.getElem?_range hk]
    simp [List.getElem?_eq_getElem hlt]
  · have hnodup : ((List.range l.length).map (fun k => (c + 1 + k) % l.length)).Nodup := by
      apply List.Nodup.map_on _ (List.nodup_range _)
      intro j hj k hk h
      exact hinj j k (List.mem_range.mp hj) (List.mem_range.mp hk) h
    have hsub : (List.range l.length).map (fun k => (c + 1 + k) % l.length)
        ⊆ List.range l.length := by
      intro x hx
      obtain ⟨k, -, rfl⟩ := List.mem_map.mp hx
      exact List.mem_range.mpr (Nat.mod_lt _ hpos)
    have hsp := List.subperm_of_subset hnodup hsub
    exact hsp.perm_of_length_le (by simp)
  · rw [hN]
  · intro fs paths swaps start r hr hrne
    obtain ⟨scanned, -, rfl⟩ := reload_internal_full_eq fs paths swaps start r hr
    simp only at hrne ⊢
    have hpos2 : 0 < (Backgrounds.shuffle swaps scanned.m_bgs).length := List.length_pos.mpr hrne
    have hlt : 1 % (Backgrounds.shuffle swaps scanned.m_bgs).length
        < (Backgrounds.shuffle swaps scanned.m_bgs).length := Nat.mod_lt _ hpos2
    refine ⟨(Backgrounds.shuffle swaps scanned.m_bgs)[1 % (Backgrounds.shuffle swaps scanned.m_bgs).length],
      by simp [List.getElem?_eq_getElem hlt], ?_⟩
    rw [getRandom_eq _ 0 false false hrne]
    simp [List.getElem?_eq_getElem hlt]

/-- Witness for C11: three entries with the cursor at 1; three calls return the
entries at indices 2, 0, 1. -/
theorem getRandomN_round_robin_witness :
    (threeBackgrounds.getRandomN threeBackgrounds.m_bgs.length).1
        = (threeBackgrounds.m_bgs.rotate (threeBackgrounds.m_bgiter + 1)).map
            Backgrounds.Outcome.value ∧
      (threeBackgrounds.getRandomN 3).1
        = [Backgrounds.Outcome.value "c.svg", Backgrounds.Outcome.value "a.png",
           Backgrounds.Outcome.value "b.jpg"] :=
  ⟨(getRandomN_round_robin threeBackgrounds (by decide)).1, by decide⟩

/-- C12: when the full reload completes, the list is a permutation of the paths
that the scan, started from the emptied list, collected; the loading flag and
the dirty flag are false and the cursor is 0. It completes whenever
`fs::is_directory` throws on none of the candidate directories. -/
theorem reload_internal_full_spec (fs : FileSystem) (paths : List FsPath)
    (swaps : List (Nat × Nat)) (self : Backgrounds) :
    (∀ r, Backgrounds.reload_internal_full fs paths swaps self = some r →
      ∃ scanned,
        Backgrounds.reload_internal_paths fs paths { self with m_bgs := [], m_dirty := true }
          = some scanned ∧
        r.m_bgs.Perm scanned.m_bgs ∧ r.m_loading = false ∧ r.m_dirty = false ∧
        r.m_bgiter = 0) ∧
    ((∀ p ∈ paths, fs.is_directory (p.append "backgrounds") ≠ none) →
      ∃ r, Backgrounds.reload_internal_full fs paths swaps self = some r) := by
  constructor
  · intro r hr
    obtain ⟨scanned, hs, rfl⟩ := reload_internal_full_eq fs paths swaps self r hr
    exact ⟨scanned, hs, shuffle_perm swaps scanned.m_bgs, rfl, rfl, rfl⟩
  · intro h
    obtain ⟨scanned, hs⟩ := reload_internal_paths_returns fs paths
      { self with m_bgs := [], m_dirty := true } h
    unfold Backgrounds.reload_internal_full
    simp only [hs]
    exact ⟨_, rfl⟩

/-- Witness for C12: the reload of `reloadStart` over the data directory
`usr/share` of `flatFs` completes in `reloadDone`, whose two entries are the two
images found, the old entry gone. -/
theorem reload_internal_full_spec_witness :
    Backgrounds.reload_internal_full flatFs [⟨["usr", "share"]⟩] [(0, 1)] reloadStart
        = some reloadDone ∧
      ∃ scanned,
        Backgrounds.reload_internal_paths flatFs [⟨["usr", "share"]⟩]
            { reloadStart with m_bgs := [], m_dirty := true } = some scanned ∧
          reloadDone.m_bgs.Perm scanned.m_bgs ∧ reloadDone.m_loading = false ∧
          reloadDone.m_dirty = false ∧ reloadDone.m_bgiter = 0 :=
  ⟨by decide,
    (reload_internal_full_spec flatFs [⟨["usr", "share"]⟩] [(0, 1)] reloadStart).1
      reloadDone (by decide)⟩

/-- Joining one more component appends the separator and the component. -/
theorem intercalate_go_append (s e : String) (l : List String) :
    ∀ acc : String, String.intercalate.go acc s (l ++ [e])
      = String.intercalate.go acc s l ++ s ++ e := by
  induction l with
  | nil => intro acc; rfl
  | cons a t ih => intro acc; exact ih _

/-- The joined components end with the last component. -/
theorem intercalate_append_suffix (cs : List String) (e : String) :
    ∃ pre : String, "/".intercalate (cs ++ [e]) = pre ++ e := by
  cases cs with
  | nil => exact ⟨"", by simp [String.intercalate, String.intercalate.go]⟩
  | cons a t =>
    refine ⟨String.intercalate.go a "/" t ++ "/", ?_⟩
    show String.intercalate.go a "/" (t ++ [e]) = _
    rw [intercalate_go_append]

/-- The file name of the entry `e` of `parent` is `e`. -/
theorem filename_append (parent : FsPath) (e : String) : (parent.append e).filename = e := by
  simp [FsPath.filename, FsPath.append]

/-- The path string of the entry `e` of `parent` ends with `e`. -/
theorem string_append_suffix (parent : FsPath) (e : String) :
    ∃ pre : String, (parent.append e).string = pre ++ e := by
  obtain ⟨cs⟩ := parent
  unfold FsPath.string FsPath.append
  simp only
  split
  · rename_i rest heq
    cases cs with
    | nil =>
      simp only [List.nil_append, List.cons.injEq] at heq
      obtain ⟨h1, h2⟩ := heq
      subst h1; subst h2
      exact ⟨"", rfl⟩
    | cons a t =>
      simp only [List.cons_append, List.cons.injEq] at heq
      obtain ⟨h1, h2⟩ := heq
      subst h2
      obtain ⟨pre, hpre⟩ := intercalate_append_suffix t e
      exact ⟨"/" ++ pre, by rw [hpre, String.append_assoc]⟩
  · exact intercalate_append_suffix cs e

/-- Erasing a suffix from the end of a string never fails, and appending the
suffix again restores the string. -/
theorem erase_suffix (pre e : String) :
    ¬ ((pre ++ e).length < e.length) ∧
      erase (pre ++ e) ((pre ++ e).length - e.length) ++ e = pre ++ e := by
  constructor
  · simp [String.length_append]
  · apply String.ext
    have hlen : (pre ++ e).length - e.length = pre.data.length := by
      have h1 : (pre ++ e).length = pre.length + e.length := String.length_append pre e
      have h2 : pre.length = pre.data.length := rfl
      omega
    rw [hlen, String.data_append, String.data_append]
    show List.take pre.data.length (pre.data ++ e.data) ++ e.data = pre.data ++ e.data
    rw [List.take_left]

/-- One pass of the scan loop over an entry that is not a directory: the entry's
path string is appended when the file name passes the filter, and the loop goes
on with the remaining entries. -/
theorem scanEntries_file (recurse : FsPath → Backgrounds → Option Backgrounds)
    (fs : FileSystem) (parent : FsPath) (e : String) (es : List String) (self : Backgrounds)
    (hload : self.m_loading = true) (hfile : fs.is_directory (parent.append e) = some false) :
    Backgrounds.scanEntries recurse fs parent (e :: es) self
      = Backgrounds.scanEntries recurse fs parent es
          (if regex_search e then
            { self with m_bgs := self.m_bgs ++ [(parent.append e).string], m_dirty := true }
           else self) := by
  obtain ⟨pre, hpre⟩ := string_append_suffix parent e
  have hers := erase_suffix pre e
  rw [Backgrounds.scanEntries]
  simp only [hload, hfile, filename_append, hpre, hers.1, hers.2, Bool.not_true,
    Bool.false_eq_true, if_false]
  cases hre : regex_search e <;> simp

/-- C13: while a directory is scanned (loading flag set), an entry that is not a
directory is added to the list if and only if its file name, letters lowered,
ends with ".png", ".jpeg", ".jpg" or ".svg"; what is stored is the entry's path
string, since erasing the file name from its end and appending it again gives
the path string back. "a.PNG" passes the filter, "a.png.txt" and "png" do not. -/
theorem scanEntries_file_filter (recurse : FsPath → Backgrounds → Option Backgrounds)
    (fs : FileSystem) (parent : FsPath) (e : String) (self : Backgrounds)
    (hload : self.m_loading = true) (hfile : fs.is_directory (parent.append e) = some false) :
    (∃ r, Backgrounds.scanEntries recurse fs parent [e] self = some r ∧
      (r.m_bgs = self.m_bgs ++ [(parent.append e).string] ↔
        regex_search (parent.append e).filename = true) ∧
      (r.m_bgs = self.m_bgs ↔ regex_search (parent.append e).filename = false)) ∧
    (∀ es, Backgrounds.scanEntries recurse fs parent (e :: es) self
      = Backgrounds.scanEntries recurse fs parent es
          (if regex_search (parent.append e).filename then
            { self with m_bgs := self.m_bgs ++ [(parent.append e).string], m_dirty := true }
           else self)) ∧
    (regex_search (parent.append e).filename = true ↔
      ∃ ext ∈ [".png", ".jpeg", ".jpg", ".svg"],
        ext.data <:+ (parent.append e).filename.data.map Char.toLower) ∧
    (parent.append e).filename = e ∧
    ¬ ((parent.append e).string.length < (parent.append e).filename.length) ∧
    erase (parent.append e).string
        ((parent.append e).string.length - (parent.append e).filename.length)
      ++ (parent.append e).filename = (parent.append e).string ∧
    regex_search "a.PNG" = true ∧ regex_search "a.png.txt" = false ∧
    regex_search "png" = false := by
  obtain ⟨pre, hpre⟩ := string_append_suffix parent e
  have hers := erase_suffix pre e
  have hstep := scanEntries_file recurse fs parent e
  rw [filename_append]
  refine ⟨?_, fun es => hstep es self hload hfile, ?_, rfl, ?_, ?_, by decide, by decide,
    by decide⟩
  · rw [hstep [] self hload hfile]
    cases hre : regex_search e
    · refine ⟨self, rfl, ?_, ?_⟩
      · simp
      · simp
    · refine ⟨_, rfl, ?_, ?_⟩
      · simp
      · simp
  · simp [regex_search, List.isSuffixOf_iff_suffix]
  · rw [hpre]; exact hers.1
  · rw [hpre]; exact hers.2

/-- Witness for C13: scanning the entry `a.PNG` of `usr/share/backgrounds` on
`flatFs` adds the string "usr/share/backgrounds/a.PNG". -/
theorem scanEntries_file_filter_witness :
    ∃ r, Backgrounds.scanEntries (Backgrounds.reload_internal flatFs 0) flatFs
        ⟨["usr", "share", "backgrounds"]⟩ ["a.PNG"] scanStart = some r ∧
      (r.m_bgs = scanStart.m_bgs ++ ["usr/share/backgrounds/a.PNG"] ↔
        regex_search "a.PNG" = true) ∧
      (r.m_bgs = scanStart.m_bgs ↔ regex_search "a.PNG" = false) :=
  (scanEntries_file_filter (Backgrounds.reload_internal flatFs 0) flatFs
    ⟨["usr", "share", "backgrounds"]⟩ "a.PNG" scanStart (by decide) (by decide)).1

/-- Every polled event is recorded by the controllers. -/
theorem checkEvent_controllers (sm t : Nat) (gm : Game) (event : SDL_Event) :
    (checkEvent sm t gm event).controllers = gm.controllers ++ [(event, t)] := by
  simp only [checkEvent]
  split_ifs <;> rfl

/-- The screen receives the event unless it is a globally handled shortcut. -/
theorem checkEvent_screen (sm t : Nat) (gm : Game) (event : SDL_Event) :
    (checkEvent sm t gm event).screen
      = if isGlobalShortcut sm event then gm.screen else gm.screen ++ [event] := by
  by_cases hk : event.type = SDL_KEYDOWN
  · have hq : ¬ SDL_KEYDOWN = SDL_QUIT := by decide
    have hw : ¬ SDL_KEYDOWN = SDL_WINDOWEVENT := by decide
    simp only [checkEvent, isGlobalShortcut, isFullscreenShortcut, isScreenshotShortcut,
      isQuitShortcut, hk, hq, hw, if_true, if_false, true_and, Bool.or_eq_true,
      Bool.and_eq_true, beq_iff_eq, bne_iff_ne, ne_eq]
    split_ifs with h1 h2 h3 h4 <;> first | rfl | (exfalso; tauto)
  · simp only [checkEvent, isGlobalShortcut, isFullscreenShortcut, isScreenshotShortcut,
      isQuitShortcut, hk, if_false, false_and, or_self]
    split_ifs <;> rfl

/-- The fullscreen setting is negated by a fullscreen shortcut and kept by every
other event. -/
theorem checkEvent_fullscreen (sm t : Nat) (gm : Game) (event : SDL_Event) :
    (checkEvent sm t gm event).fullscreen
      = if isFullscreenShortcut event then !gm.fullscreen else gm.fullscreen := by
  by_cases hk : event.type = SDL_KEYDOWN
  · have hq : ¬ SDL_KEYDOWN = SDL_QUIT := by decide
    have hw : ¬ SDL_KEYDOWN = SDL_WINDOWEVENT := by decide
    simp only [checkEvent, isFullscreenShortcut, hk, hq, hw, if_true, if_false, true_and,
      Bool.or_eq_true, Bool.and_eq_true, beq_iff_eq, bne_iff_ne, ne_eq]
    split_ifs with h1 h2 h3 h4 <;> first | rfl | (exfalso; tauto)
  · simp only [checkEvent, isFullscreenShortcut, hk, if_false, false_and]
    split_ifs <;> rfl

/-- The controllers record the whole queue, in order. -/
theorem checkEvents_controllers (sm t : Nat) (queue : List SDL_Event) :
    ∀ gm : Game, (checkEvents sm t queue gm).controllers
      = gm.controllers ++ queue.map (fun e => (e, t)) := by
  induction queue with
  | nil => intro gm; simp [checkEvents]
  | cons e es ih =>
    intro gm
    have h1 : checkEvents sm t (e :: es) gm = checkEvents sm t es (checkEvent sm t gm e) := rfl
    rw [h1, ih, checkEvent_controllers]
    simp

/-- The screen receives the events of the queue that are not globally handled
shortcuts, in order. -/
theorem checkEvents_screen (sm t : Nat) (queue : List SDL_Event) :
    ∀ gm : Game, (checkEvents sm t queue gm).screen
      = gm.screen ++ queue.filter (fun e => decide (¬ isGlobalShortcut sm e)) := by
  induction queue with
  | nil => intro gm; simp [checkEvents]
  | cons e es ih =>
    intro gm
    have h1 : checkEvents sm t (e :: es) gm = checkEvents sm t es (checkEvent sm t gm e) := rfl
    rw [h1, ih, checkEvent_screen]
    by_cases h : isGlobalShortcut sm e
    · simp [h]
    · simp [h]

/-- C14: every polled event is pushed to the controllers; it is passed to the
current screen's `manageEvent` if and only if it is not a key-down event
matching a fullscreen, screenshot or quit shortcut; a fullscreen shortcut
negates the fullscreen setting, and two of them in a row restore it. The same
holds along the whole queue of polled events. -/
theorem checkEvents_forwarding (sm t : Nat) (gm : Game) (event : SDL_Event) :
    (checkEvent sm t gm event).controllers = gm.controllers ++ [(event, t)] ∧
    ((checkEvent sm t gm event).screen = gm.screen ++ [event] ↔ ¬ isGlobalShortcut sm event) ∧
    ((checkEvent sm t gm event).screen = gm.screen ↔ isGlobalShortcut sm event) ∧
    (isFullscreenShortcut event → (checkEvent sm t gm event).fullscreen = !gm.fullscreen) ∧
    (∀ event2, isFullscreenShortcut event → isFullscreenShortcut event2 →
      (checkEvent sm t (checkEvent sm t gm event) event2).fullscreen = gm.fullscreen) ∧
    (∀ queue, (checkEvents sm t queue gm).controllers
      = gm.controllers ++ queue.map (fun e => (e, t))) ∧
    (∀ queue, (checkEvents sm t queue gm).screen
      = gm.screen ++ queue.filter (fun e => decide (¬ isGlobalShortcut sm e))) := by
  refine ⟨checkEvent_controllers sm t gm event, ?_, ?_, ?_, ?_,
    fun queue => checkEvents_controllers sm t queue gm,
    fun queue => checkEvents_screen sm t queue gm⟩
  · rw [checkEvent_screen]
    by_cases h : isGlobalShortcut sm event
    · simp [h]
    · simp [h]
  · rw [checkEvent_screen]
    by_cases h : isGlobalShortcut sm event
    · simp [h]
    · simp [h]
  · intro h
    rw [checkEvent_fullscreen, if_pos h]
  · intro event2 h h2
    rw [checkEvent_fullscreen, if_pos h2, checkEvent_fullscreen, if_pos h]
    simp

/-- Witness for C14: Alt+Return followed by F11, both fullscreen shortcuts, leave
the fullscreen setting of `freshGame` as it was. -/
theorem checkEvents_forwarding_witness :
    (checkEvent KMOD_CTRL 7 (checkEvent KMOD_CTRL 7 freshGame altReturn) plainF11).fullscreen
      = freshGame.fullscreen :=
  (checkEvents_forwarding KMOD_CTRL 7 freshGame altReturn).2.2.2.2.1 plainF11
    (by decide) (by decide)

/-- Copying with `std::back_inserter` appends the elements in order. -/
theorem foldl_push_back (c : List String) :
    ∀ init : List String, c.foldl (fun acc x => acc ++ [x]) init = init ++ c := by
  induction c with
  | nil => intro init; simp
  | cons a t ih => intro init; simp [ih]

/-- C15: `confOverride c name` leaves the configuration unchanged when `c` is
empty; for a non-empty `c` the string list of `config[name]` afterwards equals
`c`, whatever it held before, and no other item changes; applying it twice
with the same `c` gives what applying it once gives. -/
theorem confOverride_spec (c : List String) (name : String) (config : Config) :
    (c = [] → confOverride c name config = config) ∧
    (c ≠ [] → (confOverride c name config name).sl = c) ∧
    (∀ other, other ≠ name → confOverride c name config other = config other) ∧
    confOverride c name (confOverride c name config) = confOverride c name config := by
  cases c with
  | nil => simp [confOverride]
  | cons a t =>
    have hf : (a :: t).foldl (fun acc x => acc ++ [x]) [] = a :: t := by
      rw [foldl_push_back]; rfl
    refine ⟨fun h => absurd h (List.cons_ne_nil a t), fun _ => ?_, fun other ho => ?_, ?_⟩
    · simp only [confOverride, List.isEmpty_cons, Bool.false_eq_true, if_false, hf, if_true]
    · simp only [confOverride, List.isEmpty_cons, Bool.false_eq_true, if_false, hf, if_neg ho]
    · funext key
      simp only [confOverride, List.isEmpty_cons, Bool.false_eq_true, if_false, hf]
      split <;> rfl

/-- Witness for C15: overriding `paths/songs` with two directories. -/
theorem confOverride_spec_witness :
    (confOverride ["/music/a", "/music/b"] "paths/songs" defaultConfig "paths/songs").sl
      = ["/music/a", "/music/b"] :=
  (confOverride_spec ["/music/a", "/music/b"] "paths/songs" defaultConfig).2.1 (by decide)

end Performous
